import Mathlib

/-!
Verification of the data-collection module `pts/collector/DataCollector.py`.

The module's only non-glue logic is:
  * `check_junit` — an XML dependency-version gate over a Maven `pom.xml`;
  * `RE_GITHUB_URL` / `parse_github_url` — a regex-based GitHub URL recognizer;
  * `parse_repo_name` — builds a clone URL from an `owner_repo`-style name.

Strings are embedded as `List Char`.  Python operations used by the code
(`str.split`, `int(...)`) are embedded as executable Lean functions below,
restricted to ASCII digits/whitespace (the inputs the module handles).
Fallible Python code (exceptions) is embedded with `Option` / `Except`.
-/

namespace DataCollector

/-- Embedding of Python `s.split(sep)` for a one-character separator `sep`
(no maxsplit): splits on every occurrence of `sep`; the result is always
nonempty, and adjacent/leading/trailing separators yield empty pieces,
exactly as in Python (`"a..b".split(".") == ["a","","b"]`,
`"".split(".") == [""]`). -/
def pySplit (sep : Char) : List Char → List (List Char)
  | [] => [[]]
  | c :: cs =>
    if c = sep then
      [] :: pySplit sep cs
    else
      match pySplit sep cs with
      | r :: rs => (c :: r) :: rs
      | [] => [[c]]

/-- Characters stripped by Python `int(str)` before parsing (ASCII fragment
of Python's whitespace set). -/
def pyWhitespace (c : Char) : Bool :=
  c == ' ' || c == '\t' || c == '\n' || c == '\r' || c == '\x0b' || c == '\x0c'

/-- Digit-run parser for Python `int(str)`: after an initial digit, further
digits may be separated by single underscores (`int("1_0") == 10`); an
underscore must be followed by a digit.  Accumulates the decimal value. -/
def pyDigitsCore (acc : Nat) : List Char → Option Nat
  | [] => some acc
  | c :: cs =>
    if c.isDigit then
      pyDigitsCore (10 * acc + (c.toNat - 48)) cs
    else if c = '_' then
      match cs with
      | d :: cs2 =>
        if d.isDigit then pyDigitsCore (10 * acc + (d.toNat - 48)) cs2 else none
      | [] => none
    else none

/-- Nonempty digit run (first char must be a digit). -/
def pyDigits : List Char → Option Nat
  | [] => none
  | c :: cs => if c.isDigit then pyDigitsCore (c.toNat - 48) cs else none

/-- Embedding of Python `int(s)` (base 10, ASCII): strips whitespace at both
ends, allows one optional sign, then a nonempty digit run with optional
single underscores between digits.  `none` models a raised `ValueError`. -/
def pyInt : List Char → Option Int
  | s =>
    let t := ((s.dropWhile pyWhitespace).reverse.dropWhile pyWhitespace).reverse
    match t with
    | '+' :: r => (pyDigits r).map Int.ofNat
    | '-' :: r => (pyDigits r).map (fun n => -(n : Int))
    | r => (pyDigits r).map Int.ofNat

/-- Errors the collector's pure logic can raise.  `parseError` models
`xml.etree.ElementTree.ParseError` on malformed XML, `attributeError` models
`AttributeError` from calling `.text` / `.split` on `None`, `valueError`
models `ValueError` from `int(...)`. -/
inductive PomError where
  | parseError
  | attributeError
  | valueError
deriving DecidableEq

instance : DecidableEq (Except PomError Bool) := fun x y =>
  match x, y with
  | Except.ok a, Except.ok b =>
    if h : a = b then Decidable.isTrue (by rw [h])
    else Decidable.isFalse (fun hc => h (Except.ok.inj hc))
  | Except.ok _, Except.error _ => Decidable.isFalse (fun hc => Except.noConfusion hc)
  | Except.error _, Except.ok _ => Decidable.isFalse (fun hc => Except.noConfusion hc)
  | Except.error a, Except.error b =>
    if h : a = b then Decidable.isTrue (by rw [h])
    else Decidable.isFalse (fun hc => h (Except.error.inj hc))

/-- One `<dependency>` element as `check_junit` observes it.
`artifactId = none` models `d.find("xmlns:artifactId", ...)` returning
`None` (child element absent); `artifactId = some none` models a present
element whose `.text` is `None`; `artifactId = some (some s)` a present
element with text `s`.  Likewise for `version`. -/
structure Dependency where
  artifactId : Option (Option (List Char))
  version : Option (Option (List Char))
deriving DecidableEq

/-- The `"junit"` entry of `REQUIREMENTS`: `lambda v: int(v) == 4`.
`int(v)` raises `ValueError` when `v` is not an integer literal. -/
def junit_requirement (v : List Char) : Except PomError Bool :=
  match pyInt v with
  | none => Except.error PomError.valueError
  | some n => Except.ok (decide (n = 4))

/-- Embedding of the class attribute
`REQUIREMENTS = { "junit": lambda v: int(v) == 4 }` as an association
list from artifact identifier to version predicate. -/
def REQUIREMENTS : List (List Char × (List Char → Except PomError Bool)) :=
  [("junit".toList, junit_requirement)]

/-- Loop body of `check_junit` over the dependency elements returned by
`root.findall(".//xmlns:dependency", ...)`, in document order:

    for d in deps:
        artifact_id = d.find("xmlns:artifactId", namespaces=namespaces).text
        if artifact_id in cls.REQUIREMENTS.keys():
            version = d.find("xmlns:version", namespaces=namespaces).text.split(".")[0]
            if cls.REQUIREMENTS[artifact_id](version):
                return True
            else:
                return False
    return False

If `d.find(...)` is `None`, `.text` raises `AttributeError`.  A present
`artifactId` with `None` text is never in `REQUIREMENTS.keys()`, so the
dependency is skipped.  On a key match, an absent `version` element or a
`None` version text raises `AttributeError` (`.text` resp. `.split` on
`None`); otherwise the first `.`-separated token is passed to the
predicate, whose boolean is returned as the verdict (`.split` always
returns a nonempty list, so the `[0]` index never fails). -/
def check_junit_deps : List Dependency → Except PomError Bool
  | [] => Except.ok false
  | d :: ds =>
    match d.artifactId with
    | none => Except.error PomError.attributeError
    | some none => check_junit_deps ds
    | some (some a) =>
      match REQUIREMENTS.lookup a with
      | none => check_junit_deps ds
      | some pred =>
        match d.version with
        | none => Except.error PomError.attributeError
        | some none => Except.error PomError.attributeError
        | some (some vtext) => pred ((pySplit '.' vtext).headD [])

/-- Embedding of `check_junit(pom_file)`.  The XML file is modelled by the
list of `<dependency>` elements that `ElementTree.parse` + `findall` would
produce, with `none` modelling a malformed document (on which
`ElementTree.parse` raises a parse error before the loop runs). -/
def check_junit : Option (List Dependency) → Except PomError Bool
  | none => Except.error PomError.parseError
  | some deps => check_junit_deps deps

/-- A dependency that the loop of `check_junit` skips without reading its
version and without deciding: its `artifactId` element is present but its
text is not a key of `REQUIREMENTS`. -/
def skipsDep (d : Dependency) : Bool :=
  match d.artifactId with
  | none => false
  | some none => true
  | some (some a) => (REQUIREMENTS.lookup a).isNone

/-- A dependency whose artifact identifier matches a key of
`REQUIREMENTS` (the gate decides or errors at this dependency). -/
def depMatches (d : Dependency) : Bool :=
  match d.artifactId with
  | some (some a) => (REQUIREMENTS.lookup a).isSome
  | _ => false

/-- Verdict the gate produces at the first matching dependency: errors if
the version element is absent or has `None` text, otherwise the predicate
applied to the major-version token. -/
def evalMatched (d : Dependency) : Except PomError Bool :=
  match d.artifactId with
  | some (some a) =>
    match REQUIREMENTS.lookup a with
    | some pred =>
      match d.version with
      | none => Except.error PomError.attributeError
      | some none => Except.error PomError.attributeError
      | some (some vtext) => pred ((pySplit '.' vtext).headD [])
    | none => Except.error PomError.attributeError
  | _ => Except.error PomError.attributeError

/-- A dependency at which the scan of `check_junit` raises instead of
skipping or returning: its `artifactId` element is absent, or its
artifact identifier matches a key and its version element is absent, has
`None` text, or has a major-version token rejected by `int(...)`. -/
def badDep (d : Dependency) : Bool :=
  match d.artifactId with
  | none => true
  | some none => false
  | some (some a) =>
    match REQUIREMENTS.lookup a with
    | none => false
    | some pred =>
      match d.version with
      | none => true
      | some none => true
      | some (some vtext) => !(pred ((pySplit '.' vtext).headD [])).isOk

/-- Embedding of `parse_repo_name(project_name)`:

    github_user_name = project_name.split('_')[0]
    github_project_name = project_name.split('_')[1]
    return f"https://github.com/{github_user_name}/{github_project_name}.git"

`none` models the `IndexError` raised by `[1]` when the name contains no
underscore (`split` then returns a one-element list). -/
def parse_repo_name (project_name : List Char) : Option (List Char) :=
  match pySplit '_' project_name with
  | a :: b :: _ =>
    some ("https://github.com/".toList ++ a ++ '/' :: (b ++ ".git".toList))
  | _ => none

/-- Literal-prefix matcher: `dropLiteral p s = some r` iff `s = p ++ r`.
Used to embed the literal part `https://github\.com/` of the regex. -/
def dropLiteral : List Char → List Char → Option (List Char)
  | [], s => some s
  | _ :: _, [] => none
  | p :: ps, c :: cs => if c = p then dropLiteral ps cs else none

/-- Embedding of
`RE_GITHUB_URL = re.compile(r"https://github\.com/(?P<user>[^/]+)/(?P<repo>.+?)(\.git)?")`
applied with `.fullmatch`, returning the `user` and `repo` groups.

Derivation from Python backtracking semantics:
  * the literal `https://github\.com/` must prefix the input;
  * `(?P<user>[^/]+)` is greedy over non-`/` characters and is followed by
    a literal `/`; since no shorter run can be followed by `/`, the group
    is forced to be the maximal run before the first `/` of the remainder,
    and must be nonempty (`+`); if the remainder has no `/`, or starts
    with `/`, the match fails;
  * after that `/`, with `rest` the remaining characters,
    `(?P<repo>.+?)(\.git)?` must consume `rest` exactly (fullmatch).
    `.` matches every character except `'\n'` (no DOTALL), including `/`.
    The lazy `.+?` tries the shortest repo first, and for each length the
    optional group prefers matching `.git` over matching nothing.  The
    only lengths that can reach the end of input are `rest.length - 4`
    (with the group taking the final `.git`) and `rest.length` (group
    empty), so: if `rest` ends in `".git"`, is longer than 4 (`repo`
    needs at least one character), and the part before that suffix is
    newline-free, `repo` is `rest` minus the final `".git"`; otherwise,
    if `rest` is nonempty and newline-free, `repo` is all of `rest`;
    otherwise there is no match. -/
def RE_GITHUB_URL_fullmatch (s : List Char) : Option (List Char × List Char) :=
  match dropLiteral "https://github.com/".toList s with
  | none => none
  | some t =>
    match t.dropWhile (fun c => c != '/') with
    | [] => none
    | _ :: rest =>
      if t.takeWhile (fun c => c != '/') = [] then none
      else if rest.length > 4 ∧ rest.drop (rest.length - 4) = ".git".toList ∧
          '\n' ∉ rest.take (rest.length - 4) then
        some (t.takeWhile (fun c => c != '/'), rest.take (rest.length - 4))
      else if rest ≠ [] ∧ '\n' ∉ rest then
        some (t.takeWhile (fun c => c != '/'), rest)
      else none

/-- Embedding of `parse_github_url(github_url)`:

    m = cls.RE_GITHUB_URL.fullmatch(github_url)
    if m is None:
        return None
    else:
        return m.group("user"), m.group("repo")

`none` models the Python `None` return on non-match. -/
def parse_github_url (github_url : List Char) : Option (List Char × List Char) :=
  RE_GITHUB_URL_fullmatch github_url

/-- Declarative reading of the regex pattern with fullmatch: the whole
input decomposes as `https://github.com/` ++ user ++ `/` ++ repo ++ g with
user nonempty and slash-free (`[^/]+`), repo nonempty and newline-free
(`.+?` without DOTALL), and g either the literal `".git"` or empty
(`(\.git)?`). -/
def GithubUrlShape (s : List Char) : Prop :=
  ∃ user repo g, s = "https://github.com/".toList ++ user ++ '/' :: (repo ++ g)
    ∧ user ≠ [] ∧ '/' ∉ user ∧ repo ≠ [] ∧ '\n' ∉ repo
    ∧ (g = ".git".toList ∨ g = [])

/-! ### Helper lemmas about the embedded Python primitives -/

theorem pySplit_ne_nil (sep : Char) : ∀ l : List Char, pySplit sep l ≠ []
  | [] => by simp [pySplit]
  | c :: cs => by
    simp only [pySplit]
    split
    · simp
    · split <;> simp

/-- The first piece of `s.split(sep)` is the prefix of `s` before the first
occurrence of `sep`. -/
theorem pySplit_headD (sep : Char) (l : List Char) :
    (pySplit sep l).headD [] = l.takeWhile (fun c => c != sep) := by
  induction l with
  | nil => rfl
  | cons c cs ih =>
    by_cases h : c = sep
    · subst h
      simp [pySplit, List.takeWhile_cons]
    · simp only [pySplit, if_neg h]
      cases e : pySplit sep cs with
      | nil => exact absurd e (pySplit_ne_nil sep cs)
      | cons r rs =>
        rw [e] at ih
        simp only [List.headD_cons] at ih
        simp [List.takeWhile_cons, bne_iff_ne, h, ← ih]

theorem pySplit_sep_append (sep : Char) (a b : List Char) (h : sep ∉ a) :
    pySplit sep (a ++ sep :: b) = a :: pySplit sep b := by
  induction a with
  | nil => simp [pySplit]
  | cons c cs ih =>
    have hc : c ≠ sep := fun e => h (by simp [e])
    have hcs : sep ∉ cs := fun m => h (List.mem_cons_of_mem _ m)
    simp only [List.cons_append, pySplit, if_neg hc, List.append_eq, ih hcs]

theorem pySplit_no_sep (sep : Char) (l : List Char) (h : sep ∉ l) :
    pySplit sep l = [l] := by
  induction l with
  | nil => rfl
  | cons c cs ih =>
    have hc : c ≠ sep := fun e => h (by simp [e])
    have hcs : sep ∉ cs := fun m => h (List.mem_cons_of_mem _ m)
    simp only [pySplit, if_neg hc, ih hcs]

theorem dropLiteral_append (p r : List Char) : dropLiteral p (p ++ r) = some r := by
  induction p with
  | nil => rfl
  | cons c cs ih => simp [dropLiteral, ih]

theorem dropLiteral_eq_some (p : List Char) :
    ∀ s r : List Char, dropLiteral p s = some r → s = p ++ r := by
  induction p with
  | nil =>
    intro s r h
    simp only [dropLiteral, Option.some.injEq] at h
    simp [h]
  | cons c cs ih =>
    intro s r h
    cases s with
    | nil => simp [dropLiteral] at h
    | cons x xs =>
      simp only [dropLiteral] at h
      by_cases e : x = c
      · rw [if_pos e] at h
        rw [e, List.cons_append, ← ih xs r h]
      · rw [if_neg e] at h
        exact absurd h (by simp)

theorem takeWhile_slash (a r : List Char) (h : '/' ∉ a) :
    (a ++ '/' :: r).takeWhile (fun c => c != '/') = a := by
  induction a with
  | nil => simp [List.takeWhile_cons]
  | cons c cs ih =>
    have hc : c ≠ '/' := fun e => h (by simp [e])
    have hcs : '/' ∉ cs := fun m => h (List.mem_cons_of_mem _ m)
    simp [List.takeWhile_cons, bne_iff_ne, hc, ih hcs]

theorem dropWhile_slash (a r : List Char) (h : '/' ∉ a) :
    (a ++ '/' :: r).dropWhile (fun c => c != '/') = '/' :: r := by
  induction a with
  | nil => simp [List.dropWhile_cons]
  | cons c cs ih =>
    have hc : c ≠ '/' := fun e => h (by simp [e])
    have hcs : '/' ∉ cs := fun m => h (List.mem_cons_of_mem _ m)
    simp [List.dropWhile_cons, bne_iff_ne, hc, ih hcs]

/-- Core evaluation lemma for the URL recognizer: on an input of the shape
`https://github.com/` ++ user ++ `/` ++ rest with user nonempty and
slash-free, the recognizer reduces to the branch analysis on `rest`. -/
theorem parse_github_url_split (user rest : List Char) (hu : user ≠ [])
    (hs : '/' ∉ user) :
    parse_github_url ("https://github.com/".toList ++ user ++ '/' :: rest) =
      if rest.length > 4 ∧ rest.drop (rest.length - 4) = ".git".toList ∧
          '\n' ∉ rest.take (rest.length - 4) then
        some (user, rest.take (rest.length - 4))
      else if rest ≠ [] ∧ '\n' ∉ rest then
        some (user, rest)
      else none := by
  unfold parse_github_url RE_GITHUB_URL_fullmatch
  rw [List.append_assoc, dropLiteral_append]
  simp only [takeWhile_slash _ _ hs, dropWhile_slash _ _ hs, if_neg hu]

/-- Evaluation of the recognizer on a canonical clone URL
`https://github.com/<user>/<repo>.git`: the `.git` suffix is consumed by
the optional group and `repo` is returned as the repo component. -/
theorem parse_github_url_git (user repo : List Char) (hu : user ≠ [])
    (hs : '/' ∉ user) (hr : repo ≠ []) (hn : '\n' ∉ repo) :
    parse_github_url
        ("https://github.com/".toList ++ user ++ '/' :: (repo ++ ".git".toList)) =
      some (user, repo) := by
  rw [parse_github_url_split user _ hu hs]
  have hlen : (repo ++ ".git".toList).length = repo.length + 4 := by
    simp [List.length_append]
  have hd : (repo ++ ".git".toList).drop ((repo ++ ".git".toList).length - 4) =
      ".git".toList := by
    rw [hlen, Nat.add_sub_cancel, List.drop_left]
  have ht : (repo ++ ".git".toList).take ((repo ++ ".git".toList).length - 4) =
      repo := by
    rw [hlen, Nat.add_sub_cancel, List.take_left]
  rw [if_pos]
  · rw [ht]
  · refine ⟨?_, hd, ?_⟩
    · rw [hlen]
      have : 0 < repo.length := List.length_pos.mpr hr
      omega
    · rw [ht]
      exact hn

/-- Evaluation of the recognizer when the part after the user's `/` does
not end in `.git`: all of it (slashes included) becomes the repo group. -/
theorem parse_github_url_plain (user rest : List Char) (hu : user ≠ [])
    (hs : '/' ∉ user) (hr : rest ≠ []) (hn : '\n' ∉ rest)
    (hg : rest.drop (rest.length - 4) ≠ ".git".toList) :
    parse_github_url ("https://github.com/".toList ++ user ++ '/' :: rest) =
      some (user, rest) := by
  rw [parse_github_url_split user rest hu hs]
  rw [if_neg (fun hc => hg hc.2.1), if_pos ⟨hr, hn⟩]

theorem dropWhile_head_false (p : Char → Bool) :
    ∀ (l : List Char) (c : Char) (rest : List Char),
      l.dropWhile p = c :: rest → p c = false := by
  intro l
  induction l with
  | nil => intro c rest h; simp [List.dropWhile] at h
  | cons x xs ih =>
    intro c rest h
    rw [List.dropWhile_cons] at h
    by_cases hx : p x = true
    · rw [if_pos hx] at h
      exact ih c rest h
    · rw [if_neg hx] at h
      cases h
      simpa using hx

/-- Soundness of the recognizer against the declarative reading of the
regex: any successful parse exhibits the pattern decomposition. -/
theorem parse_github_url_sound (s u r : List Char)
    (h : parse_github_url s = some (u, r)) : GithubUrlShape s := by
  unfold parse_github_url RE_GITHUB_URL_fullmatch at h
  split at h
  · exact absurd h (by simp)
  · rename_i t e1
    have hst : s = "https://github.com/".toList ++ t := dropLiteral_eq_some _ s t e1
    split at h
    · exact absurd h (by simp)
    · rename_i c rest e2
      have hc : c = '/' := by
        have hpf := dropWhile_head_false (fun x => x != '/') t c rest e2
        simpa using hpf
      subst hc
      have hsplit : t.takeWhile (fun c => c != '/') ++ '/' :: rest = t := by
        rw [← e2, List.takeWhile_append_dropWhile]
      have hmem : '/' ∉ t.takeWhile (fun c => c != '/') := by
        intro hm
        have hpm := List.mem_takeWhile_imp hm
        simp at hpm
      split at h
      · exact absurd h (by simp)
      · rename_i huser
        split at h
        rotate_left
        · split at h
          · rename_i hcond2
            obtain ⟨hne, hnl⟩ := hcond2
            obtain ⟨hu2, hr2⟩ : t.takeWhile (fun c => c != '/') = u ∧ rest = r := by
              have hinj := Option.some.inj h
              exact ⟨congrArg Prod.fst hinj, congrArg Prod.snd hinj⟩
            refine ⟨u, r, [], ?_, ?_, ?_, ?_, ?_, Or.inr rfl⟩
            · rw [hst, ← hsplit, hu2, hr2, List.append_nil, List.append_assoc]
            · rw [← hu2]; exact huser
            · rw [← hu2]; exact hmem
            · rw [← hr2]; exact hne
            · rw [← hr2]; exact hnl
          · exact absurd h (by simp)
        rename_i hcond
        obtain ⟨hlen, hdrop, htake⟩ := hcond
        obtain ⟨hu2, hr2⟩ : t.takeWhile (fun c => c != '/') = u ∧
            rest.take (rest.length - 4) = r := by
          have := Option.some.inj h
          exact ⟨congrArg Prod.fst this, congrArg Prod.snd this⟩
        refine ⟨u, r, ".git".toList, ?_, ?_, ?_, ?_, ?_, Or.inl rfl⟩
        · rw [hst, ← hsplit, hu2]
          have hrg : rest = r ++ ".git".toList := by
            rw [← hr2, ← hdrop, List.take_append_drop]
          rw [hrg, List.append_assoc]
        · rw [← hu2]; exact huser
        · rw [← hu2]; exact hmem
        · rw [← hr2]
          have : (rest.take (rest.length - 4)).length = rest.length - 4 := by
            rw [List.length_take]
            omega
          intro hnil
          rw [hnil] at this
          simp at this
          omega
        · rw [← hr2]; exact htake

/-- Completeness of the recognizer: any input of the declarative pattern
shape is accepted (returns a result rather than `none`). -/
theorem parse_github_url_complete (s : List Char) (h : GithubUrlShape s) :
    parse_github_url s ≠ none := by
  obtain ⟨user, repo, g, hdec, hu, hs, hr, hn, hg⟩ := h
  subst hdec
  cases hg with
  | inl hgit =>
    subst hgit
    rw [parse_github_url_git user repo hu hs hr hn]
    simp
  | inr hnil =>
    subst hnil
    rw [List.append_nil, parse_github_url_split user repo hu hs]
    split
    · simp
    · rw [if_pos ⟨hr, hn⟩]
      simp

/-! ### Helper lemmas about the dependency-version gate -/

theorem check_junit_deps_skip (d : Dependency) (ds : List Dependency)
    (h : skipsDep d = true) :
    check_junit_deps (d :: ds) = check_junit_deps ds := by
  cases e : d.artifactId with
  | none => simp [skipsDep, e] at h
  | some a =>
    cases a with
    | none => simp [check_junit_deps, e]
    | some s =>
      cases el : REQUIREMENTS.lookup s with
      | none => simp [check_junit_deps, e, el]
      | some p => simp [skipsDep, e, el] at h

theorem check_junit_deps_skip_leading (pre ds : List Dependency)
    (h : ∀ d ∈ pre, skipsDep d = true) :
    check_junit_deps (pre ++ ds) = check_junit_deps ds := by
  induction pre with
  | nil => rfl
  | cons d pre ih =>
    rw [List.cons_append, check_junit_deps_skip d _ (h d (by simp)),
      ih (fun x hx => h x (List.mem_cons_of_mem _ hx))]

theorem check_junit_deps_match (d : Dependency) (ds : List Dependency)
    (h : depMatches d = true) :
    check_junit_deps (d :: ds) = evalMatched d := by
  cases e : d.artifactId with
  | none => simp [depMatches, e] at h
  | some a =>
    cases a with
    | none => simp [depMatches, e] at h
    | some s =>
      cases el : REQUIREMENTS.lookup s with
      | none => simp [depMatches, e, el] at h
      | some p => simp [check_junit_deps, evalMatched, e, el]

/-- The gate's verdict is produced at the first dependency whose artifact
identifier matches a key: everything after it is ignored. -/
theorem check_junit_deps_first (pre : List Dependency) (d : Dependency)
    (post : List Dependency) (hpre : ∀ x ∈ pre, skipsDep x = true)
    (hd : depMatches d = true) :
    check_junit_deps (pre ++ d :: post) = evalMatched d := by
  rw [check_junit_deps_skip_leading pre _ hpre, check_junit_deps_match d post hd]

theorem check_junit_deps_all_skip (deps : List Dependency)
    (h : ∀ d ∈ deps, skipsDep d = true) :
    check_junit_deps deps = Except.ok false := by
  have h2 := check_junit_deps_skip_leading deps [] h
  rw [List.append_nil] at h2
  rw [h2]
  rfl

/-- Evaluation of the gate when the first matching dependency is a
`junit` entry with version text `v`: the verdict is the `junit`
requirement applied to the part of `v` before the first `.`. -/
theorem check_junit_first_junit (pre : List Dependency) (v : List Char)
    (post : List Dependency) (hpre : ∀ x ∈ pre, skipsDep x = true) :
    check_junit_deps
        (pre ++ (⟨some (some "junit".toList), some (some v)⟩ : Dependency) :: post) =
      junit_requirement (v.takeWhile (fun c => c != '.')) := by
  rw [check_junit_deps_first pre
    (⟨some (some "junit".toList), some (some v)⟩ : Dependency) post hpre (by rfl)]
  show junit_requirement ((pySplit '.' v).headD []) =
    junit_requirement (v.takeWhile (fun c => c != '.'))
  rw [pySplit_headD]

theorem skipsDep_not_bad (d : Dependency) (h : skipsDep d = true) :
    badDep d = false := by
  cases e : d.artifactId with
  | none => simp [skipsDep, e] at h
  | some a =>
    cases a with
    | none => simp [badDep, e]
    | some s =>
      cases el : REQUIREMENTS.lookup s with
      | none => simp [badDep, e, el]
      | some p => simp [skipsDep, e, el] at h

theorem check_junit_deps_nonskip (d : Dependency) (ds : List Dependency)
    (h : skipsDep d = false) :
    (check_junit_deps (d :: ds)).isOk = !(badDep d) := by
  cases e : d.artifactId with
  | none => simp [check_junit_deps, badDep, e, Except.isOk, Except.toBool]
  | some a =>
    cases a with
    | none => simp [skipsDep, e] at h
    | some s =>
      cases el : REQUIREMENTS.lookup s with
      | none => simp [skipsDep, e, el] at h
      | some pred =>
        cases ev : d.version with
        | none => simp [check_junit_deps, badDep, e, el, ev, Except.isOk, Except.toBool]
        | some vo =>
          cases vo with
          | none => simp [check_junit_deps, badDep, e, el, ev, Except.isOk, Except.toBool]
          | some v => simp [check_junit_deps, badDep, e, el, ev]

/-- Characterization of the gate's error behavior: the scan raises (in
document order) exactly when some dependency with an absent `artifactId`
element, or some matching dependency with a broken version, is reached
before a verdict — i.e. preceded only by skipped dependencies. -/
theorem check_junit_deps_error_iff (deps : List Dependency) :
    (check_junit_deps deps).isOk = false ↔
      ∃ pre d post, deps = pre ++ d :: post ∧
        (∀ x ∈ pre, skipsDep x = true) ∧ badDep d = true := by
  induction deps with
  | nil =>
    constructor
    · intro h
      simp [check_junit_deps, Except.isOk, Except.toBool] at h
    · rintro ⟨pre, d, post, habs, -, -⟩
      exact absurd habs (by simp)
  | cons d0 ds ih =>
    by_cases hskip : skipsDep d0 = true
    · rw [check_junit_deps_skip d0 ds hskip, ih]
      constructor
      · rintro ⟨pre, d, post, hdec, hpre, hbad⟩
        refine ⟨d0 :: pre, d, post, by rw [hdec, List.cons_append], ?_, hbad⟩
        intro x hx
        rcases List.mem_cons.mp hx with h1 | h2
        · rw [h1]; exact hskip
        · exact hpre x h2
      · rintro ⟨pre, d, post, hdec, hpre, hbad⟩
        cases pre with
        | nil =>
          simp only [List.nil_append, List.cons.injEq] at hdec
          exact absurd hbad (by rw [← hdec.1] at *; simp [skipsDep_not_bad d0 hskip])
        | cons p pre2 =>
          rw [List.cons_append] at hdec
          injection hdec with h1 h2
          exact ⟨pre2, d, post, h2, fun x hx => hpre x (List.mem_cons_of_mem _ hx), hbad⟩
    · have hb := check_junit_deps_nonskip d0 ds (by simpa using hskip)
      rw [hb]
      constructor
      · intro h
        refine ⟨[], d0, ds, rfl, by simp, ?_⟩
        simpa using h
      · rintro ⟨pre, d, post, hdec, hpre, hbad⟩
        cases pre with
        | nil =>
          simp only [List.nil_append, List.cons.injEq] at hdec
          rw [hdec.1]
          simp [hbad]
        | cons p pre2 =>
          rw [List.cons_append] at hdec
          injection hdec with h1 h2
          exact absurd (h1 ▸ hpre p (by simp)) (by simpa using hskip)

/-! ### Claims -/

/-- Claim C1, counterexample: the claim states that every URL with a
trailing path segment after the repo name is rejected by
`parse_github_url` (full-match requirement).  In fact
`https://github.com/foo/bar/extra` is accepted: `fullmatch` is used, but
`.` in the lazy `(?P<repo>.+?)` group matches `/`, so the extra segment
is absorbed into the repo group instead of failing the match. -/
theorem parse_github_url_trailing_segment_counterexample :
    parse_github_url "https://github.com/foo/bar/extra".toList =
        some ("foo".toList, "bar/extra".toList) ∧
      parse_github_url "https://github.com/foo/bar/extra".toList ≠ none := by
  decide

/-- Claim C1 (amended): `parse_github_url` requires the input to start
with `https://github.com/<user>/` with `user` nonempty and slash-free,
but does not reject trailing path segments: for any nonempty,
newline-free remainder `path` that does not end in `.git`, the whole
remainder — further `/` segments included — is returned as the repo
component rather than the URL being rejected. -/
theorem parse_github_url_accepts_trailing_segments (user path : List Char)
    (hu : user ≠ []) (hs : '/' ∉ user) (hp : path ≠ []) (hn : '\n' ∉ path)
    (hg : path.drop (path.length - 4) ≠ ".git".toList) :
    parse_github_url ("https://github.com/".toList ++ user ++ '/' :: path) =
      some (user, path) :=
  parse_github_url_plain user path hu hs hp hn hg

/-- Witness for the amended claim C1 at user `foo`, path `bar/extra`. -/
theorem parse_github_url_accepts_trailing_segments_witness :
    parse_github_url
        ("https://github.com/".toList ++ "foo".toList ++ '/' :: "bar/extra".toList) =
      some ("foo".toList, "bar/extra".toList) :=
  parse_github_url_accepts_trailing_segments "foo".toList "bar/extra".toList
    (by decide) (by decide) (by decide) (by decide) (by decide)

/-- Claim C2, counterexample: the round-trip property is stated for every
owner and repo string without underscores and slashes, but it fails when
`repo` is the empty string (which contains neither): formatting
`("foo", "")` gives project name `foo_`, `parse_repo_name` turns it into
`https://github.com/foo/.git`, and `parse_github_url` parses that to
`("foo", ".git")` — the regex needs a nonempty repo group, so the lazy
group swallows the `.git` suffix instead of the suffix being stripped. -/
theorem roundtrip_counterexample :
    ((parse_repo_name ("foo".toList ++ '_' :: ([] : List Char))).bind parse_github_url =
        some ("foo".toList, ".git".toList)) ∧
      (parse_repo_name ("foo".toList ++ '_' :: ([] : List Char))).bind parse_github_url ≠
        some ("foo".toList, ([] : List Char)) := by
  decide

/-- Claim C2 (amended): for every nonempty owner and nonempty repo with no
underscore and no slash characters, and repo additionally newline-free,
formatting the pair as `owner_repo`, converting that project name to a
clone URL with `parse_repo_name`, and parsing the result with
`parse_github_url` yields back exactly the original pair. -/
theorem roundtrip_amended (owner repo : List Char) (ho : owner ≠ [])
    (ho1 : '_' ∉ owner) (ho2 : '/' ∉ owner) (hr : repo ≠ []) (hr1 : '_' ∉ repo)
    (_hr2 : '/' ∉ repo) (hr3 : '\n' ∉ repo) :
    (parse_repo_name (owner ++ '_' :: repo)).bind parse_github_url =
      some (owner, repo) := by
  have h1 : pySplit '_' (owner ++ '_' :: repo) = owner :: [repo] := by
    rw [pySplit_sep_append '_' owner repo ho1, pySplit_no_sep '_' repo hr1]
  simp only [parse_repo_name, h1, Option.some_bind]
  exact parse_github_url_git owner repo ho ho2 hr hr3

/-- Witness for the amended claim C2 at owner `foo`, repo `bar`. -/
theorem roundtrip_amended_witness :
    (parse_repo_name ("foo".toList ++ '_' :: "bar".toList)).bind parse_github_url =
      some ("foo".toList, "bar".toList) :=
  roundtrip_amended "foo".toList "bar".toList (by decide) (by decide) (by decide)
    (by decide) (by decide) (by decide) (by decide)

/-- Claim C3: the gate returns the verdict of the first dependency whose
artifact identifier matches a key of `REQUIREMENTS` — true if its
predicate succeeds, false if it fails — with everything after that
dependency ignored; it returns false when every dependency is skipped
(artifact identifier present but matching no key); and on an unrelated
artifact followed by `junit` it returns true for version `4.13` and
false for version `3.8`. -/
theorem check_junit_gate_spec :
    (∀ (pre : List Dependency) (d : Dependency) (post : List Dependency) (b : Bool),
      (∀ x ∈ pre, skipsDep x = true) → depMatches d = true →
      evalMatched d = Except.ok b →
      check_junit_deps (pre ++ d :: post) = Except.ok b)
    ∧ (∀ deps : List Dependency, (∀ d ∈ deps, skipsDep d = true) →
        check_junit_deps deps = Except.ok false)
    ∧ check_junit_deps
        [⟨some (some "slf4j".toList), some (some "1.7.5".toList)⟩,
         ⟨some (some "junit".toList), some (some "4.13".toList)⟩] = Except.ok true
    ∧ check_junit_deps
        [⟨some (some "slf4j".toList), some (some "1.7.5".toList)⟩,
         ⟨some (some "junit".toList), some (some "3.8".toList)⟩] = Except.ok false := by
  refine ⟨?_, check_junit_deps_all_skip, by decide, by decide⟩
  intro pre d post b hpre hd hb
  rw [check_junit_deps_first pre d post hpre hd, hb]

/-- Witness for claim C3: a skipped dependency, then a matching `junit 4.13`,
then a later matching `junit 3.8` that is never consulted. -/
theorem check_junit_gate_spec_witness :
    check_junit_deps
        [⟨some (some "slf4j".toList), some (some "1.7.5".toList)⟩,
         ⟨some (some "junit".toList), some (some "4.13".toList)⟩,
         ⟨some (some "junit".toList), some (some "3.8".toList)⟩] = Except.ok true :=
  check_junit_gate_spec.1
    [⟨some (some "slf4j".toList), some (some "1.7.5".toList)⟩]
    ⟨some (some "junit".toList), some (some "4.13".toList)⟩
    [⟨some (some "junit".toList), some (some "3.8".toList)⟩] true
    (by decide) (by decide) (by decide)

/-- Claim C4: when the first matching dependency is a `junit` entry with
version text `v`, the gate's result is exactly the predicate applied to
the substring of `v` before the first `.` separator — so the predicate
receives precisely the major-version token and nothing else. -/
theorem check_junit_major_token (pre : List Dependency) (v : List Char)
    (post : List Dependency) (hpre : ∀ x ∈ pre, skipsDep x = true) :
    check_junit_deps
        (pre ++ (⟨some (some "junit".toList), some (some v)⟩ : Dependency) :: post) =
      junit_requirement (v.takeWhile (fun c => c != '.')) :=
  check_junit_first_junit pre v post hpre

/-- Witness for claim C4 at version text `4.13`: the predicate receives
`4` and succeeds. -/
theorem check_junit_major_token_witness :
    check_junit_deps
        [(⟨some (some "junit".toList), some (some "4.13".toList)⟩ : Dependency)] =
        junit_requirement ("4.13".toList.takeWhile (fun c => c != '.')) ∧
      junit_requirement ("4.13".toList.takeWhile (fun c => c != '.')) = Except.ok true :=
  ⟨check_junit_major_token [] "4.13".toList [] (by decide), by decide⟩

/-- Claim C5: when `parse_github_url` matches, it returns the `(user, repo)`
pair with the optional trailing `.git` suffix stripped from the repo
component; in particular `https://github.com/foo/bar.git` and
`https://github.com/foo/bar` both parse to `("foo", "bar")`, while
`https://example.com/foo/bar` fails to parse. -/
theorem parse_github_url_match_spec :
    (∀ user repo : List Char, user ≠ [] → '/' ∉ user → repo ≠ [] → '\n' ∉ repo →
      parse_github_url
          ("https://github.com/".toList ++ user ++ '/' :: (repo ++ ".git".toList)) =
        some (user, repo))
    ∧ parse_github_url "https://github.com/foo/bar.git".toList =
        some ("foo".toList, "bar".toList)
    ∧ parse_github_url "https://github.com/foo/bar".toList =
        some ("foo".toList, "bar".toList)
    ∧ parse_github_url "https://example.com/foo/bar".toList = none := by
  exact ⟨fun user repo hu hs hr hn => parse_github_url_git user repo hu hs hr hn,
    by decide, by decide, by decide⟩

/-- Witness for claim C5 at user `foo`, repo `bar`. -/
theorem parse_github_url_match_spec_witness :
    parse_github_url
        ("https://github.com/".toList ++ "foo".toList ++ '/' ::
          ("bar".toList ++ ".git".toList)) =
      some ("foo".toList, "bar".toList) :=
  parse_github_url_match_spec.1 "foo".toList "bar".toList
    (by decide) (by decide) (by decide) (by decide)

/-- Claim C6, counterexample: the claim asserts that for well-formed input
with the required children present on matching dependencies no error is
raised; but a matching `junit` dependency whose version text is the Maven
property placeholder (artifactId and version children both present)
makes `int(...)` raise `ValueError`, so the gate errors anyway. -/
theorem check_junit_error_counterexample :
    check_junit
        (some [(⟨some (some "junit".toList),
          some (some "$\x7bjunit.version\x7d".toList)⟩ : Dependency)]) =
      Except.error PomError.valueError := by
  decide

/-- Claim C6 (amended): `check_junit` raises an error exactly when the XML
document is malformed, or when the scan — in document order, before any
verdict — reaches a dependency that is bad: its `artifactId` child is
absent, or its artifact identifier matches a predicate key and its
`version` child is absent, has empty text, or has a major-version token
rejected by `int(...)`.  Equivalently: the result is an error iff the
dependency list splits as `pre ++ d :: post` with every element of `pre`
skipped and `d` bad. -/
theorem check_junit_error_characterization :
    (check_junit none).isOk = false ∧
    ∀ deps : List Dependency,
      ((check_junit (some deps)).isOk = false ↔
        ∃ pre d post, deps = pre ++ d :: post ∧
          (∀ x ∈ pre, skipsDep x = true) ∧ badDep d = true) :=
  ⟨rfl, fun deps => check_junit_deps_error_iff deps⟩

/-- Claim C7: an input string matches the GitHub URL pattern (declarative
reading `GithubUrlShape`) exactly when `parse_github_url` returns a
result; on every non-matching input it returns `none` — and, being a
total function into `Option`, it raises nothing. -/
theorem parse_github_url_none_iff (s : List Char) :
    parse_github_url s = none ↔ ¬ GithubUrlShape s := by
  constructor
  · intro h hshape
    exact parse_github_url_complete s hshape h
  · intro hns
    cases e : parse_github_url s with
    | none => rfl
    | some p => exact absurd (parse_github_url_sound s p.1 p.2 (by rw [e])) hns

/-- Claim C8: `parse_repo_name` fails (IndexError, modelled as `none`) on
every project name without an underscore; on `a ++ "_" ++ b` with `a`
underscore-free it returns
`https://github.com/<a>/<b up to the next underscore>.git`. -/
theorem parse_repo_name_spec :
    (∀ pn : List Char, '_' ∉ pn → parse_repo_name pn = none) ∧
    (∀ a b : List Char, '_' ∉ a →
      parse_repo_name (a ++ '_' :: b) =
        some ("https://github.com/".toList ++ a ++ '/' ::
          (b.takeWhile (fun c => c != '_') ++ ".git".toList))) := by
  constructor
  · intro pn h
    simp only [parse_repo_name, pySplit_no_sep '_' pn h]
  · intro a b h
    have h1 := pySplit_sep_append '_' a b h
    obtain ⟨r, rs, e⟩ : ∃ r rs, pySplit '_' b = r :: rs := by
      cases e : pySplit '_' b with
      | nil => exact absurd e (pySplit_ne_nil '_' b)
      | cons r rs => exact ⟨r, rs, rfl⟩
    have hr : r = b.takeWhile (fun c => c != '_') := by
      have hh := pySplit_headD '_' b
      rw [e] at hh
      simpa using hh
    rw [e] at h1
    simp only [parse_repo_name, h1, hr]

/-- Witness for claim C8: no underscore in `foo` gives `none`; the name
`a_b_c` gives the URL built from `a` and `b`. -/
theorem parse_repo_name_spec_witness :
    parse_repo_name "foo".toList = none ∧
    parse_repo_name ("a".toList ++ '_' :: "b_c".toList) =
      some ("https://github.com/".toList ++ "a".toList ++ '/' ::
        ("b_c".toList.takeWhile (fun c => c != '_') ++ ".git".toList)) :=
  ⟨parse_repo_name_spec.1 "foo".toList (by decide),
   parse_repo_name_spec.2 "a".toList "b_c".toList (by decide)⟩

/-- Claim C9: when the first dependency whose artifact identifier matches
a predicate key is a `junit` entry whose major-version token (text before
the first `.`) is rejected by `int(...)` — for example the Maven
placeholder — the gate raises `ValueError` instead of returning false. -/
theorem check_junit_nonint_version_error (pre : List Dependency) (v : List Char)
    (post : List Dependency) (hpre : ∀ x ∈ pre, skipsDep x = true)
    (hv : pyInt (v.takeWhile (fun c => c != '.')) = none) :
    check_junit_deps
        (pre ++ (⟨some (some "junit".toList), some (some v)⟩ : Dependency) :: post) =
      Except.error PomError.valueError := by
  rw [check_junit_first_junit pre v post hpre]
  simp [junit_requirement, hv]

/-- Witness for claim C9 at version text `${junit.version}`. -/
theorem check_junit_nonint_version_error_witness :
    check_junit_deps
        [(⟨some (some "junit".toList),
          some (some "$\x7bjunit.version\x7d".toList)⟩ : Dependency)] =
      Except.error PomError.valueError :=
  check_junit_nonint_version_error [] "$\x7bjunit.version\x7d".toList []
    (by decide) (by decide)

/-- Claim C10: the gate never reads the version of a dependency whose
artifact identifier matches no predicate key: two dependency lists that
agree on all artifact identifiers and agree on versions of matching
dependencies produce identical results — so a missing or malformed
version on a non-matching dependency neither raises nor changes the
verdict. -/
theorem check_junit_ignores_nonmatching_versions (ds₁ ds₂ : List Dependency)
    (h : List.Forall₂ (fun d₁ d₂ => d₁.artifactId = d₂.artifactId ∧
        (depMatches d₁ = true → d₁.version = d₂.version)) ds₁ ds₂) :
    check_junit_deps ds₁ = check_junit_deps ds₂ := by
  induction h with
  | nil => rfl
  | cons hpair htail ih =>
    rename_i d₁ d₂ l₁ l₂
    obtain ⟨ha, hv⟩ := hpair
    cases e : d₁.artifactId with
    | none =>
      have e2 : d₂.artifactId = none := by rw [← ha, e]
      simp [check_junit_deps, e, e2]
    | some a =>
      have e2 : d₂.artifactId = some a := by rw [← ha, e]
      cases a with
      | none => simp [check_junit_deps, e, e2, ih]
      | some sid =>
        cases el : REQUIREMENTS.lookup sid with
        | none => simp [check_junit_deps, e, e2, el, ih]
        | some pred =>
          have hm : depMatches d₁ = true := by simp [depMatches, e, el]
          have hveq := hv hm
          simp [check_junit_deps, e, e2, el, hveq]

/-- Witness for claim C10: a non-matching dependency with an absent
version element behaves like one with a well-formed version. -/
theorem check_junit_ignores_nonmatching_versions_witness :
    check_junit_deps [(⟨some (some "slf4j".toList), none⟩ : Dependency)] =
        check_junit_deps
          [(⟨some (some "slf4j".toList), some (some "1.0".toList)⟩ : Dependency)] ∧
      check_junit_deps [(⟨some (some "slf4j".toList), none⟩ : Dependency)] =
        Except.ok false :=
  ⟨check_junit_ignores_nonmatching_versions _ _
    (List.Forall₂.cons ⟨rfl, fun hm => absurd hm (by decide)⟩ List.Forall₂.nil),
   by decide⟩

end DataCollector
